import Mathlib

/-!
# Spinnaker operator: validation policy and hash store

A shallow embedding of `pkg/apis/spinnaker/interfaces/validation.go`, followed by a
model of the account resolver and serializer of `pkg/accounts/kubernetes`, of which
only the tests are at hand.

Conventions of the embedding.

* Go `int`, `int64` and `time.Duration` are 64-bit signed integers: they are Lean
  integers, and every operation that can leave the range is wrapped by `wrapInt64`.
* A `time.Time` denotes an instant. It is embedded as the number of nanoseconds
  elapsed since the zero instant (January 1, year 1, 00:00:00 UTC), which is what
  `IsZero`, `Add` and `After` are documented to work on. The location and the
  optional monotonic clock reading of the Go value are not represented, and the
  instants are not bounded (Go represents about 2.9e11 years either side).
* `time.Now()` is read from an explicit argument `now`.
* A pointer receiver is passed in and the receiver after the call is part of the
  result. Values of type `*HashStatus` are addresses into an explicit `Heap`.
* A runtime panic is the result `none`.
-/

/-- Two-complement wrap of an integer into the signed 64-bit range. -/
def wrapInt64 (x : Int) : Int := (x + 2 ^ 63) % 2 ^ 64 - 2 ^ 63

/-- The integer is representable as a signed 64-bit value. -/
def fitsInt64 (x : Int) : Prop := -(2 ^ 63) ≤ x ∧ x < 2 ^ 63

instance (x : Int) : Decidable (fitsInt64 x) := by
  unfold fitsInt64; infer_instance

/-! ## Package `strconv` (Go standard library), base 10 on a 64-bit platform -/

namespace strconv

/-- The `Err` field of a `*NumError`, or no error. -/
inductive NumError where
  | nil
  | ErrSyntax
  | ErrRange
  deriving DecidableEq, Repr

/-- Size of `int` in bits. -/
def IntSize : Nat := 64

def maxUint64 : Nat := 2 ^ 64 - 1

/-- The byte is an ASCII decimal digit. -/
def isDigit (c : Char) : Bool := decide ('0'.toNat ≤ c.toNat ∧ c.toNat ≤ '9'.toNat)

/-- The loop of `ParseUint(s, 10, 0)`: `n` is the value accumulated so far.
Every byte that is not a decimal digit is a syntax error (base 10 admits neither
letters nor underscores); an overflow returns at once with `maxVal`. -/
def ParseUint.loop : List Char → Nat → Nat × NumError
  | [], n => (n, .nil)
  | c :: cs, n =>
    if isDigit c then
      let d := c.toNat - '0'.toNat
      let cutoff := maxUint64 / 10 + 1
      let maxVal := 2 ^ IntSize - 1
      if n ≥ cutoff then
        (maxVal, .ErrRange)
      else
        let n := n * 10
        let n1 := (n + d) % 2 ^ 64
        if n1 < n ∨ n1 > maxVal then
          (maxVal, .ErrRange)
        else
          ParseUint.loop cs n1
    else
      (0, .ErrSyntax)

/-- `ParseUint(s, 10, 0)`. -/
def ParseUint (s : List Char) : Nat × NumError :=
  if s = [] then (0, .ErrSyntax) else ParseUint.loop s 0

/-- `ParseInt(s, 10, 0)`. -/
def ParseInt (s : List Char) : Int × NumError :=
  match s with
  | [] => (0, .ErrSyntax)
  | c :: cs =>
    let neg := c = '-'
    let s := if c = '+' ∨ c = '-' then cs else s
    let (un, err) := ParseUint s
    if err ≠ .nil ∧ err ≠ .ErrRange then
      (0, err)
    else
      let cutoff : Nat := 2 ^ (IntSize - 1)
      if ¬ neg ∧ un ≥ cutoff then
        ((cutoff : Int) - 1, .ErrRange)
      else if neg ∧ un > cutoff then
        (-(cutoff : Int), .ErrRange)
      else
        let n := wrapInt64 un
        (if neg then wrapInt64 (-n) else n, .nil)

/-- The loop of the fast path of `Atoi`. -/
def Atoi.fast : List Char → Int → Option Int
  | [], n => some n
  | ch :: cs, n =>
    if isDigit ch then Atoi.fast cs (n * 10 + ((ch.toNat - '0'.toNat : Nat) : Int)) else none

/-- `Atoi(s)`: a fast path for strings of 1 to 18 bytes, `ParseInt` otherwise. -/
def Atoi (str : String) : Int × NumError :=
  let sLen := str.utf8ByteSize
  if 0 < sLen ∧ sLen < 19 then
    match str.data with
    | [] => (0, .ErrSyntax)
    | c :: cs =>
      let signed := c = '-' ∨ c = '+'
      let s := if signed then cs else c :: cs
      if signed ∧ s.length < 1 then
        (0, .ErrSyntax)
      else
        match Atoi.fast s 0 with
        | none => (0, .ErrSyntax)
        | some n => (if c = '-' then -n else n, .nil)
  else
    ParseInt str.data

end strconv

/-! ## Package `intstr` (k8s.io/apimachinery) -/

namespace intstr

/-- The tag of an `IntOrString` (Go: `intstr.Type`, field `Type`). -/
inductive Kind where
  | Int
  | String
  deriving DecidableEq, Repr

/-- `intstr.IntOrString`; `IntVal` is an `int32`. -/
structure IntOrString where
  Typ : Kind := .Int
  IntVal : Int := 0
  StrVal : String := ""
  deriving DecidableEq, Repr

/-- The value is one Go can hold: `IntVal` is in the range of `int32`. -/
def IntOrString.wellFormed (x : IntOrString) : Prop :=
  -(2 ^ 31) ≤ x.IntVal ∧ x.IntVal < 2 ^ 31

/-- `IntValue`: the integer, or `Atoi` of the string with the error dropped. -/
def IntOrString.IntValue (x : IntOrString) : Int :=
  if x.Typ = .String then
    (strconv.Atoi x.StrVal).1
  else
    x.IntVal

end intstr

/-! ## Package `time` (Go standard library) and `metav1.Time` -/

namespace time

/-- `time.Second` as a `Duration`, in nanoseconds. -/
def Second : Int := 1000000000

/-- An instant, in nanoseconds since the zero instant. -/
structure Time where
  ns : Int := 0
  deriving DecidableEq, Repr

/-- `IsZero`: the time is the zero instant. -/
def Time.IsZero (t : Time) : Bool := t.ns == 0

/-- `Add`: the instant `t + d`. -/
def Time.Add (t : Time) (d : Int) : Time := { ns := t.ns + d }

/-- `After`: the instant `t` is after `u`. -/
def Time.After (t u : Time) : Bool := decide (u.ns < t.ns)

end time

namespace metav1

set_option linter.dupNamespace false in
/-- `metav1.Time`, a wrapper around `time.Time`. -/
structure Time where
  Time : time.Time := {}
  deriving DecidableEq, Repr

/-- `NewTime` wraps a `time.Time`. -/
def NewTime (t : time.Time) : Time := { Time := t }

/-- `IsZero` on an addressable (hence non-nil) `metav1.Time`. -/
def Time.IsZero (t : metav1.Time) : Bool := t.Time.IsZero

end metav1

/-! ## Package `interfaces`: the types used by `validation.go` -/

namespace interfaces

/-- Modelled from the spec: the type declaration `HashStatus` is not part of
`validation.go`; the spec gives it the fields `Hash` and `LastUpdatedAt`. The
default values are the Go zero values. -/
structure HashStatus where
  Hash : String := ""
  LastUpdatedAt : metav1.Time := {}
  deriving DecidableEq, Repr

/-- Modelled from the spec: the type declaration `ValidationSetting` is not part of
`validation.go`; the spec gives it `Enabled`, the tri-state `FailOnError` (a `*bool`,
`none` for nil) and `FrequencySeconds`. -/
structure ValidationSetting where
  Enabled : Bool := false
  FailOnError : Option Bool := none
  FrequencySeconds : intstr.IntOrString := {}
  deriving DecidableEq, Repr

/-- Modelled from the spec: the type declaration `SpinnakerValidation` is not part of
`validation.go`; only the two fields that `GetValidationSettings` reads are kept. -/
structure SpinnakerValidation where
  FailOnError : Option Bool := none
  FrequencySeconds : intstr.IntOrString := {}
  deriving DecidableEq, Repr

/-- A Go value of type `map[string]HashStatus`: `none` is the nil map, `some f` an
allocated map whose entry at `k` is `f k`. -/
abbrev StatusMap := Option (String → Option HashStatus)

/-- `make(map[string]HashStatus)`. -/
def StatusMap.make : StatusMap := some (fun _ => none)

/-- The comma-ok lookup `v, ok := m[key]`: `some v` when `ok`, `none` otherwise.
Reading a nil map finds nothing. -/
def StatusMap.lookup (m : StatusMap) (key : String) : Option HashStatus :=
  match m with
  | none => none
  | some f => f key

/-- The assignment `m[key] = v`; on a nil map it panics. -/
def StatusMap.assign (m : StatusMap) (key : String) (v : HashStatus) : Option StatusMap :=
  match m with
  | none => none
  | some f => some (some (fun k => if k = key then some v else f k))

/-- Modelled from the spec: the type declaration `SpinnakerServiceStatus` is not part
of `validation.go`; only the store `LastDeployed`, the one field the code touches, is
kept. -/
structure SpinnakerServiceStatus where
  LastDeployed : StatusMap := none

/-- The memory that values of type `*HashStatus` point into: the pointer `some a` is
the address of cell `a`, `none` is the nil pointer. -/
structure Heap where
  cells : List HashStatus := []
  deriving DecidableEq, Repr

/-- Allocation of a fresh cell holding `v`; returns its address. -/
def Heap.alloc (mem : Heap) (v : HashStatus) : Nat × Heap :=
  (mem.cells.length, { cells := mem.cells ++ [v] })

/-- The record a pointer refers to (`none` for nil or an address never allocated). -/
def Heap.load (mem : Heap) (p : Option Nat) : Option HashStatus :=
  match p with
  | none => none
  | some a => mem.cells[a]?

/-- The assignment `*p = v` through a non-nil pointer. -/
def Heap.store (mem : Heap) (a : Nat) (v : HashStatus) : Heap :=
  { cells := mem.cells.set a v }

/-- The assignment `p.Hash = x` through a non-nil pointer. -/
def Heap.setHash (mem : Heap) (a : Nat) (x : String) : Heap :=
  { cells := mem.cells.modify (fun r => { r with Hash := x }) a }

/-- The assignment `p.LastUpdatedAt = x` through a non-nil pointer. -/
def Heap.setLastUpdatedAt (mem : Heap) (a : Nat) (x : metav1.Time) : Heap :=
  { cells := mem.cells.modify (fun r => { r with LastUpdatedAt := x }) a }

/-- Modelled from the spec: `HashStatus.DeepCopyInto` is generated code outside
`validation.go`; the spec has it "capture a deep copy of the existing record". The
record `r` is written to the cell `out` points to. -/
def HashStatus.DeepCopyInto (r : HashStatus) (out : Nat) (mem : Heap) : Heap :=
  mem.store out r

/-- A store with the single record `{h1, 100}` at key `a`. -/
def storeA : SpinnakerServiceStatus :=
  { LastDeployed := some (fun k =>
      if k = "a" then some { Hash := "h1", LastUpdatedAt := { Time := { ns := 100 } } }
      else none) }

/-- What a method leaves behind: its return value, the receiver and the memory. -/
structure Post (ρ : Type) where
  ret : ρ
  status : SpinnakerServiceStatus
  mem : Heap

/-! ## `validation.go` -/

/-- `DefaultValidationFreqSeconds`. -/
def DefaultValidationFreqSeconds : intstr.IntOrString := { Typ := .Int, IntVal := 30 }

/-- The local `secs` of `NeedsValidation` once the default has been applied. -/
def NeedsValidation.secs (v : ValidationSetting) : Int :=
  let secs := v.FrequencySeconds.IntValue
  if secs = 0 then DefaultValidationFreqSeconds.IntValue else secs

/-- `NeedsValidation`, with the reading of `time.Now()` passed as `now`. The product
`time.Duration(secs) * time.Second` is a 64-bit multiplication. -/
def ValidationSetting.NeedsValidation (v : ValidationSetting) (lastValid : metav1.Time)
    (now : time.Time) : Bool :=
  if lastValid.IsZero then
    true
  else
    let secs := NeedsValidation.secs v
    let n := lastValid.Time.Add (wrapInt64 (secs * time.Second))
    now.After n

/-- `IsFatal`. -/
def ValidationSetting.IsFatal (v : ValidationSetting) : Bool :=
  match v.FailOnError with
  | none => true
  | some b => b

/-- `UpdateHashIfNotExist`. -/
def SpinnakerServiceStatus.UpdateHashIfNotExist (s : SpinnakerServiceStatus)
    (key hash : String) (t : time.Time) (mem : Heap) : Option (Post (Option Nat)) :=
  let s : SpinnakerServiceStatus :=
    if s.LastDeployed.isNone then { s with LastDeployed := StatusMap.make } else s
  let (res, mem) := mem.alloc {}
  let (ld, mem) :=
    match s.LastDeployed.lookup key with
    | some ld =>
      let mem := ld.DeepCopyInto res mem
      let ld := { ld with Hash := hash }
      let ld := { ld with LastUpdatedAt := metav1.NewTime t }
      (ld, mem)
    | none =>
      ({ Hash := hash, LastUpdatedAt := metav1.NewTime t }, mem)
  match s.LastDeployed.assign key ld with
  | none => none
  | some m => some { ret := some res, status := { s with LastDeployed := m }, mem := mem }

/-- `GetHash`. -/
def SpinnakerServiceStatus.GetHash (s : SpinnakerServiceStatus) (key : String)
    (mem : Heap) : Post (Option Nat) :=
  if s.LastDeployed.isNone then
    { ret := none, status := s, mem := mem }
  else
    match s.LastDeployed.lookup key with
    | some hs =>
      let (p, mem) := mem.alloc hs
      { ret := some p, status := s, mem := mem }
    | none => { ret := none, status := s, mem := mem }

/-- `GetValidationSettings`; the receiver after the call is the second component. -/
def SpinnakerValidation.GetValidationSettings (s : SpinnakerValidation) :
    ValidationSetting × SpinnakerValidation :=
  let f := s.FrequencySeconds
  let f := if f.IntValue = 0 then DefaultValidationFreqSeconds else f
  ({ Enabled := true, FailOnError := s.FailOnError, FrequencySeconds := f }, s)

end interfaces

/-! ## Accounts: types of package `interfaces` used by `pkg/accounts/kubernetes`

The resolver and the serializer of Kubernetes accounts are exercised by
`parse_test.go`; their code is not part of the sources at hand. The definitions of
this section and the next follow the specification (sections 3, 4.1, 4.2 and 6).
The `context.Context` argument of the Go methods carries no data and is left out. -/

namespace interfaces

/-- Modelled from the spec: the values of an untyped key-value bag
(`interface{}` in `map[string]interface{}`), as they arrive already decoded: a
boolean, an integer, a string, a sequence of strings or an inline document. -/
inductive Value where
  | null
  | bool (b : Bool)
  | num (n : Int)
  | str (s : String)
  | strs (items : List String)
  | doc (fields : List (String × String))
  deriving DecidableEq, Repr

/-- Modelled from the spec: `interfaces.FreeForm`, the free-form settings bag, an
untyped mapping from key to value with unique keys. -/
abbrev FreeForm := String → Option Value

/-- Modelled from the spec: `interfaces.KubernetesAuth`, the authentication of an
account, one field for each of the variants the spec lists: the service account, a
kubeconfig file (empty path: not set) and an inline kubeconfig (`none`: not set). -/
structure KubernetesAuth where
  UseServiceAccount : Bool := false
  KubeconfigFile : String := ""
  Kubeconfig : Option Value := none
  deriving DecidableEq, Repr

/-- Modelled from the spec: the manifest fragment `FromCRD` consumes, with the
`kubernetes` marker section (its content is unconstrained) and the optional
`settings` section; `none` is an absent section. -/
structure SpinnakerAccountSpec where
  Kubernetes : Option FreeForm := none
  Settings : Option FreeForm := none

end interfaces

/-! ## Package `kubernetes` (`pkg/accounts/kubernetes`) -/

namespace kubernetes

/-- An `error` value: the package-level sentinel, or an error made on the spot by
`fmt.Errorf`. Two errors are equal only when they are the same alternative. -/
inductive GoError where
  | noKubernetesDefinedError
  | errorf (msg : String)
  deriving DecidableEq, Repr

/-- The method `Error()`. -/
def GoError.Error : GoError → String
  | .noKubernetesDefinedError => "no kubernetes section defined"
  | .errorf msg => msg

/-- Modelled from the spec: the reserved key of the account name. -/
def Name : String := "name"

/-- Modelled from the spec: the reserved key `UseServiceAccount` of the rendered
settings, the boolean `serviceAccount`. -/
def UseServiceAccount : String := "serviceAccount"

/-- Modelled from the spec: the reserved key of the kubeconfig file path. -/
def KubeconfigFile : String := "kubeconfigFile"

/-- Modelled from the spec: the reserved key of the inline kubeconfig. -/
def KubeconfigFileContent : String := "kubeconfigContents"

/-- Modelled from the spec: `AccountType.GetType()`, the label of the provider. -/
def GetType : String := "Kubernetes"

/-- Modelled from the spec: `Env`, auxiliary data the resolver and the serializer
pass through untouched. -/
structure Env where
  fields : List (String × interfaces.Value) := []
  deriving DecidableEq, Repr

/-- Modelled from the spec: the canonical `Account`; `Auth` is a pointer, `none`
when the authentication is unspecified. -/
structure Account where
  Name : String := ""
  Auth : Option interfaces.KubernetesAuth := none
  Env : Env := {}
  Settings : interfaces.FreeForm := fun _ => none

/-- The value counts as given: a true boolean, a non-empty string, sequence or
document, any number. -/
def truthy : interfaces.Value → Bool
  | .null => false
  | .bool b => b
  | .num _ => true
  | .str s => decide (s ≠ "")
  | .strs items => !items.isEmpty
  | .doc fields => !fields.isEmpty

/-- Modelled from the spec: the authentication mode of a free-form settings map, by
precedence `kubeconfigFile`, then `serviceAccount`, then `kubeconfigContents`; the
first key that is present and truthy wins and no combination is rejected. -/
def resolveAuth (settings : interfaces.FreeForm) : Option interfaces.KubernetesAuth :=
  match settings KubeconfigFile with
  | some (.str path) =>
    if path ≠ "" then some { KubeconfigFile := path } else resolveRest
  | _ => resolveRest
where
  /-- The modes that come after the kubeconfig file. -/
  resolveRest : Option interfaces.KubernetesAuth :=
    match settings UseServiceAccount with
    | some (.bool true) => some { UseServiceAccount := true }
    | _ =>
      match settings KubeconfigFileContent with
      | some v => if truthy v then some { Kubeconfig := some v } else none
      | none => none

/-- The key is one of the reserved name and authentication keys. -/
def reserved (k : String) : Bool :=
  k = Name || k = KubeconfigFile || k = UseServiceAccount || k = KubeconfigFileContent

/-- Modelled from the spec: `AccountType.FromSpinnakerConfig`, which resolves an
account from a free-form settings map. A `name` that is absent, empty or not a string
is the error "<provider> account missing name"; the keys that are neither the name
nor an authentication key are kept verbatim in `Settings`. -/
def FromSpinnakerConfig (settings : interfaces.FreeForm) : Except GoError Account :=
  match settings Name with
  | some (.str n) =>
    if n = "" then
      .error (.errorf (GetType ++ " account missing name"))
    else
      .ok { Name := n
            Auth := resolveAuth settings
            Env := {}
            Settings := fun k => if reserved k then none else settings k }
  | _ => .error (.errorf (GetType ++ " account missing name"))

/-- Modelled from the spec: `AccountType.FromCRD`, which resolves an account from a
manifest fragment. Without a `kubernetes` section it fails with the sentinel; with
one, even empty, it succeeds with what the `settings` section supplies, copied
through as it is. -/
def FromCRD (spec : interfaces.SpinnakerAccountSpec) : Except GoError Account :=
  match spec.Kubernetes with
  | none => .error .noKubernetesDefinedError
  | some _ =>
    let settings : interfaces.FreeForm := spec.Settings.getD (fun _ => none)
    .ok { Name := match settings Name with
                  | some (.str n) => n
                  | _ => ""
          Auth := none
          Env := {}
          Settings := settings }

/-- Modelled from the spec: the authentication keys `ToSpinnakerSettings` emits, one
for each populated field of `Auth`; an unset `Auth` emits none. -/
def authSettings (auth : Option interfaces.KubernetesAuth) : interfaces.FreeForm :=
  fun k =>
    match auth with
    | none => none
    | some a =>
      if k = UseServiceAccount ∧ a.UseServiceAccount = true then
        some (.bool true)
      else if k = KubeconfigFile ∧ a.KubeconfigFile ≠ "" then
        some (.str a.KubeconfigFile)
      else if k = KubeconfigFileContent then
        a.Kubeconfig
      else
        none

/-- Modelled from the spec: `Account.ToSpinnakerSettings`, the inverse of the
resolver. It always succeeds; the pass-through `Settings` are merged under the
reserved name and authentication keys, which take precedence. -/
def Account.ToSpinnakerSettings (a : Account) : Except GoError interfaces.FreeForm :=
  .ok (fun k =>
    if k = kubernetes.Name then
      some (.str a.Name)
    else
      match authSettings a.Auth k with
      | some v => some v
      | none => a.Settings k)

/-- The settings `{name: "test", serviceAccount: true}` of the tests. -/
def settingsServiceAccount : interfaces.FreeForm :=
  fun k =>
    if k = "name" then some (.str "test")
    else if k = "serviceAccount" then some (.bool true)
    else none

/-- The settings `{kubeconfigFile: "test"}` of the tests, which lack a name. -/
def settingsNoName : interfaces.FreeForm :=
  fun k => if k = "kubeconfigFile" then some (.str "test") else none

end kubernetes

namespace interfaces

/-! ## Memory and hash store lemmas -/

theorem Heap.load_snoc (cells : List HashStatus) (v : HashStatus) :
    Heap.load { cells := cells ++ [v] } (some cells.length) = some v := by
  simp [Heap.load]

/-- A call of `UpdateHashIfNotExist` in closed form: it does not panic, returns the
address of a fresh cell holding the prior record (the zero record when there was
none) and rebinds `key` alone. -/
theorem UpdateHashIfNotExist_closed (s : SpinnakerServiceStatus) (key hash : String)
    (t : time.Time) (mem : Heap) :
    s.UpdateHashIfNotExist key hash t mem = some
      { ret := some mem.cells.length
        status := { LastDeployed := some (fun k =>
          if k = key then some { Hash := hash, LastUpdatedAt := metav1.NewTime t }
          else s.LastDeployed.lookup k) }
        mem := { cells := mem.cells ++ [(s.LastDeployed.lookup key).getD {}] } } := by
  rcases s with ⟨_ | f⟩
  · simp [SpinnakerServiceStatus.UpdateHashIfNotExist, StatusMap.make, StatusMap.lookup,
      StatusMap.assign, Heap.alloc]
  · cases h : f key <;>
      simp [SpinnakerServiceStatus.UpdateHashIfNotExist, StatusMap.lookup,
        StatusMap.assign, Heap.alloc, HashStatus.DeepCopyInto, Heap.store, h]

/-- A call of `GetHash` in closed form. -/
theorem GetHash_closed (s : SpinnakerServiceStatus) (key : String) (mem : Heap) :
    s.GetHash key mem =
      match s.LastDeployed.lookup key with
      | some hs => { ret := some mem.cells.length, status := s,
                     mem := { cells := mem.cells ++ [hs] } }
      | none => { ret := none, status := s, mem := mem } := by
  rcases s with ⟨_ | f⟩
  · simp [SpinnakerServiceStatus.GetHash, StatusMap.lookup]
  · cases h : f key <;>
      simp [SpinnakerServiceStatus.GetHash, StatusMap.lookup, Heap.alloc, h]

/-- What `GetHash` hands out is the stored record, whatever the memory holds. -/
theorem GetHash_load (s : SpinnakerServiceStatus) (key : String) (mem : Heap) :
    (s.GetHash key mem).mem.load (s.GetHash key mem).ret = s.LastDeployed.lookup key := by
  rw [GetHash_closed]
  cases h : s.LastDeployed.lookup key <;> simp [Heap.load]

/-! ## Hash store: the claims -/

/-- C1. `UpdateHashIfNotExist` never panics, also on a nil map, and afterwards the
store holds at `key` exactly the record with the given hash and time, whatever was
stored before. -/
theorem UpdateHashIfNotExist_overwrites (s : SpinnakerServiceStatus) (key hash : String)
    (t : time.Time) (mem : Heap) :
    ∃ post, s.UpdateHashIfNotExist key hash t mem = some post ∧
      post.status.LastDeployed.lookup key =
        some { Hash := hash, LastUpdatedAt := metav1.NewTime t } := by
  refine ⟨_, UpdateHashIfNotExist_closed s key hash t mem, ?_⟩
  simp [StatusMap.lookup]

/-- C2. `UpdateHashIfNotExist` returns a non-nil pointer; the record it points to is
the record stored at `key` before the call when there was one, and the zero record
(empty hash, zero time) when the key was absent or the map nil. -/
theorem UpdateHashIfNotExist_returns_prior (s : SpinnakerServiceStatus)
    (key hash : String) (t : time.Time) (mem : Heap) :
    ∃ post a, s.UpdateHashIfNotExist key hash t mem = some post ∧
      post.ret = some a ∧
      post.mem.load post.ret = some
        (match s.LastDeployed.lookup key with
         | some prior => prior
         | none => { Hash := "", LastUpdatedAt := { Time := { ns := 0 } } }) ∧
      ((SpinnakerServiceStatus.mk none).LastDeployed.lookup key = none) := by
  refine ⟨_, _, UpdateHashIfNotExist_closed s key hash t mem, rfl, ?_, rfl⟩
  cases h : s.LastDeployed.lookup key <;> simp [Heap.load]

end interfaces

/-! ## Validation policy -/

theorem wrapInt64_of_fits (x : Int) (h : fitsInt64 x) : wrapInt64 x = x := by
  unfold fitsInt64 at h
  unfold wrapInt64
  omega

namespace interfaces

/-- The seconds `NeedsValidation` works with: `IntValue()` unless that is 0, then 30. -/
theorem NeedsValidation.secs_eq (v : ValidationSetting) :
    NeedsValidation.secs v =
      if v.FrequencySeconds.IntValue = 0 then 30 else v.FrequencySeconds.IntValue := by
  simp [NeedsValidation.secs, DefaultValidationFreqSeconds, intstr.IntOrString.IntValue]

/-- `NeedsValidation` on a non-zero timestamp, when the duration does not wrap. -/
theorem NeedsValidation_of_fits (v : ValidationSetting) (lastValid : metav1.Time)
    (now : time.Time) (hz : lastValid.IsZero = false)
    (hfit : fitsInt64 (NeedsValidation.secs v * time.Second)) :
    (v.NeedsValidation lastValid now = true ↔
      lastValid.Time.ns + NeedsValidation.secs v * 1000000000 < now.ns) := by
  simp only [ValidationSetting.NeedsValidation, hz]
  rw [wrapInt64_of_fits _ hfit]
  simp [time.Time.Add, time.Time.After, time.Second]

/-- C3, as stated, fails: with the string frequency "9223372037" the duration in
nanoseconds wraps to a negative 64-bit value, so a timestamp one second old is
reported due although the clock is not after `lastValid` plus 9223372037 seconds.
Here `lastValid` is 63835596800 seconds after the zero instant (a day in 2023). -/
theorem NeedsValidation_wraps_counterexample :
    let v : ValidationSetting :=
      { FrequencySeconds := { Typ := .String, StrVal := "9223372037" } }
    let lastValid : metav1.Time := { Time := { ns := 63835596800000000000 } }
    let now : time.Time := { ns := 63835596801000000000 }
    lastValid.IsZero = false ∧
      wrapInt64 (9223372037 * time.Second) = -9223372036709551616 ∧
      v.FrequencySeconds.IntValue = 9223372037 ∧
      NeedsValidation.secs v = 9223372037 ∧
      v.NeedsValidation lastValid now = true ∧
      ¬ (lastValid.Time.ns + NeedsValidation.secs v * 1000000000 < now.ns) := by
  decide

/-- C3, amended. When the effective frequency in nanoseconds fits a signed 64-bit
integer, `NeedsValidation` on a non-zero `lastValid` is true exactly when the clock is
strictly after `lastValid` plus the effective frequency, which is `IntValue()` when
that is non-zero and 30 otherwise; at the boundary instant the result is false; with
frequency 0 a timestamp 10 seconds old is not due and one more than 30 seconds old
is. -/
theorem NeedsValidation_iff_strictly_after (v : ValidationSetting)
    (lastValid : metav1.Time) (now : time.Time) (hz : lastValid.IsZero = false)
    (hfit : fitsInt64 (NeedsValidation.secs v * time.Second)) :
    (NeedsValidation.secs v =
        if v.FrequencySeconds.IntValue = 0 then 30 else v.FrequencySeconds.IntValue) ∧
    (v.NeedsValidation lastValid now = true ↔
      lastValid.Time.ns + NeedsValidation.secs v * 1000000000 < now.ns) ∧
    (now.ns = lastValid.Time.ns + NeedsValidation.secs v * 1000000000 →
      v.NeedsValidation lastValid now = false) ∧
    (v.FrequencySeconds.IntValue = 0 →
      (now.ns = lastValid.Time.ns + 10 * 1000000000 →
        v.NeedsValidation lastValid now = false) ∧
      (lastValid.Time.ns + 30 * 1000000000 < now.ns →
        v.NeedsValidation lastValid now = true)) := by
  have key := NeedsValidation_of_fits v lastValid now hz hfit
  have hs := NeedsValidation.secs_eq v
  refine ⟨hs, key, ?_, ?_⟩
  · intro h
    cases hnv : v.NeedsValidation lastValid now
    · rfl
    · have := key.mp hnv
      omega
  · intro h0
    rw [if_pos h0] at hs
    rw [hs] at key
    constructor
    · intro h
      cases hnv : v.NeedsValidation lastValid now
      · rfl
      · have := key.mp hnv
        omega
    · intro h
      exact key.mpr h

/-- Witness of C3 amended: frequency 0, validated at second 100, read at second 131. -/
theorem NeedsValidation_iff_strictly_after_witness :
    (NeedsValidation.secs {} = if (0 : Int) = 0 then 30 else 0) ∧
    (ValidationSetting.NeedsValidation {} { Time := { ns := 100000000000 } }
        { ns := 131000000000 } = true ↔
      (100000000000 : Int) + NeedsValidation.secs {} * 1000000000 < 131000000000) := by
  have h := NeedsValidation_iff_strictly_after {} { Time := { ns := 100000000000 } }
    { ns := 131000000000 } (by decide) (by decide)
  exact ⟨h.1, h.2.1⟩

/-- C4. `NeedsValidation` is true on the zero timestamp, whatever the setting and the
clock. -/
theorem NeedsValidation_of_zero (v : ValidationSetting) (lastValid : metav1.Time)
    (now : time.Time) (hz : lastValid.IsZero = true) :
    v.NeedsValidation lastValid now = true := by
  simp [ValidationSetting.NeedsValidation, hz]

/-- Witness of C4: a disabled setting with a string frequency, at the zero time. -/
theorem NeedsValidation_of_zero_witness :
    (metav1.Time.mk {}).IsZero = true ∧
    ValidationSetting.NeedsValidation
      { Enabled := false, FailOnError := some false,
        FrequencySeconds := { Typ := .String, StrVal := "600" } }
      (metav1.Time.mk {}) { ns := 0 } = true :=
  ⟨by decide, NeedsValidation_of_zero _ _ _ (by decide)⟩

/-- C5, as stated, fails. A negative frequency is kept as it is, both by
`NeedsValidation`, which then adds a negative duration, and by
`GetValidationSettings`; and with the string frequency "36028797018963968", which is
2 ^ 55 seconds, the 64-bit product with 1000000000 is 0, so `NeedsValidation` adds
nothing to `lastValid`. -/
theorem effective_frequency_negative_counterexample :
    let f : intstr.IntOrString := { Typ := .Int, IntVal := -5 }
    let g : intstr.IntOrString := { Typ := .String, StrVal := "36028797018963968" }
    f.wellFormed ∧
    NeedsValidation.secs { FrequencySeconds := f } = -5 ∧
    ¬ (0 < NeedsValidation.secs { FrequencySeconds := f }) ∧
    wrapInt64 (NeedsValidation.secs { FrequencySeconds := f } * time.Second) =
      -5000000000 ∧
    (SpinnakerValidation.GetValidationSettings
      { FrequencySeconds := f }).1.FrequencySeconds.IntValue = -5 ∧
    ¬ (0 < (SpinnakerValidation.GetValidationSettings
      { FrequencySeconds := f }).1.FrequencySeconds.IntValue) ∧
    g.IntValue = 36028797018963968 ∧
    wrapInt64 (NeedsValidation.secs { FrequencySeconds := g } * time.Second) = 0 ∧
    ValidationSetting.NeedsValidation { FrequencySeconds := g }
      { Time := { ns := 63835596800000000000 } } { ns := 63835596800000000001 } = true := by
  simp only [intstr.IntOrString.wellFormed]
  decide

/-- C5, amended. When the effective frequency in nanoseconds fits a signed 64-bit
integer, the duration `NeedsValidation` adds to a non-zero `lastValid` is the
effective frequency in seconds, which is never zero and, when `IntValue()` of the
configured frequency is not negative, strictly positive. The frequency
`GetValidationSettings` returns has an integer value that is never zero and, when
`IntValue()` of the receiver's frequency is not negative, strictly positive. -/
theorem effective_frequency_nonzero (v : ValidationSetting) (s : SpinnakerValidation) :
    NeedsValidation.secs v ≠ 0 ∧
    (0 ≤ v.FrequencySeconds.IntValue → 0 < NeedsValidation.secs v) ∧
    (fitsInt64 (NeedsValidation.secs v * time.Second) →
      (∀ (lastValid : metav1.Time) (now : time.Time), lastValid.IsZero = false →
        v.NeedsValidation lastValid now =
          now.After
            (lastValid.Time.Add (wrapInt64 (NeedsValidation.secs v * time.Second))) ∧
        (lastValid.Time.Add (wrapInt64 (NeedsValidation.secs v * time.Second))).ns =
          lastValid.Time.ns + NeedsValidation.secs v * 1000000000) ∧
      wrapInt64 (NeedsValidation.secs v * time.Second) =
        NeedsValidation.secs v * 1000000000 ∧
      wrapInt64 (NeedsValidation.secs v * time.Second) ≠ 0 ∧
      (0 ≤ v.FrequencySeconds.IntValue →
        0 < wrapInt64 (NeedsValidation.secs v * time.Second))) ∧
    s.GetValidationSettings.1.FrequencySeconds.IntValue ≠ 0 ∧
    (0 ≤ s.FrequencySeconds.IntValue →
      0 < s.GetValidationSettings.1.FrequencySeconds.IntValue) := by
  have hv := NeedsValidation.secs_eq v
  have hs : s.GetValidationSettings.1.FrequencySeconds.IntValue =
      if s.FrequencySeconds.IntValue = 0 then 30 else s.FrequencySeconds.IntValue := by
    have hd : DefaultValidationFreqSeconds.IntValue = 30 := by decide
    by_cases h : s.FrequencySeconds.IntValue = 0 <;>
      simp only [SpinnakerValidation.GetValidationSettings, h, if_true, if_false, hd]
  have hne : NeedsValidation.secs v ≠ 0 := by
    rw [hv]; split <;> omega
  have hpos : 0 ≤ v.FrequencySeconds.IntValue → 0 < NeedsValidation.secs v := by
    intro h; rw [hv]; split <;> omega
  refine ⟨hne, hpos, ?_, ?_, ?_⟩
  · intro hfit
    have hw : wrapInt64 (NeedsValidation.secs v * time.Second) =
        NeedsValidation.secs v * 1000000000 := wrapInt64_of_fits _ hfit
    refine ⟨?_, hw, ?_, ?_⟩
    · intro lastValid now hz
      constructor
      · simp [ValidationSetting.NeedsValidation, hz]
      · simp only [time.Time.Add]
        rw [hw]
    · rw [hw]; omega
    · intro h
      have := hpos h
      rw [hw]; omega
  · rw [hs]; split <;> omega
  · intro h; rw [hs]; split <;> omega

/-- Witness of C5 amended: the string frequency "45", which adds 45 seconds, and the
unset frequency. -/
theorem effective_frequency_nonzero_witness :
    fitsInt64 (NeedsValidation.secs
      { FrequencySeconds := { Typ := .String, StrVal := "45" } } * time.Second) ∧
    0 < wrapInt64 (NeedsValidation.secs
      { FrequencySeconds := { Typ := .String, StrVal := "45" } } * time.Second) ∧
    0 < (SpinnakerValidation.GetValidationSettings {}).1.FrequencySeconds.IntValue :=
  ⟨by decide,
   ((effective_frequency_nonzero
      { FrequencySeconds := { Typ := .String, StrVal := "45" } } {}).2.2.1
      (by decide)).2.2.2 (by decide),
   (effective_frequency_nonzero {} {}).2.2.2.2 (by decide)⟩

/-- C6. `IsFatal` is true when `FailOnError` is unset and is the explicit value
otherwise, whatever `Enabled` and `FrequencySeconds` are. -/
theorem IsFatal_spec (enabled : Bool) (freq : intstr.IntOrString) :
    ValidationSetting.IsFatal
      { Enabled := enabled, FailOnError := none, FrequencySeconds := freq } = true ∧
    (∀ b : Bool, ValidationSetting.IsFatal
      { Enabled := enabled, FailOnError := some b, FrequencySeconds := freq } = b) ∧
    (∀ (failOnError : Option Bool) (enabled2 : Bool) (freq2 : intstr.IntOrString),
      ValidationSetting.IsFatal
        { Enabled := enabled, FailOnError := failOnError, FrequencySeconds := freq } =
      ValidationSetting.IsFatal
        { Enabled := enabled2, FailOnError := failOnError, FrequencySeconds := freq2 }) :=
  ⟨rfl, fun _ => rfl, fun _ _ _ => rfl⟩

/-! ## Hash store: lookups and repeated updates -/

/-- C7. `GetHash` returns nil exactly when `key` has no record (so always on a nil
map); otherwise it points to a record equal to the stored one; right after
`UpdateHashIfNotExist key hash t` it returns the record with that hash and time. -/
theorem GetHash_spec (s : SpinnakerServiceStatus) (key hash : String) (t : time.Time)
    (mem : Heap) :
    ((s.GetHash key mem).ret = none ↔ s.LastDeployed.lookup key = none) ∧
    (s.GetHash key mem).mem.load (s.GetHash key mem).ret = s.LastDeployed.lookup key ∧
    ((SpinnakerServiceStatus.mk none).GetHash key mem).ret = none ∧
    (∃ post, s.UpdateHashIfNotExist key hash t mem = some post ∧
      (post.status.GetHash key post.mem).ret ≠ none ∧
      (post.status.GetHash key post.mem).mem.load (post.status.GetHash key post.mem).ret =
        some { Hash := hash, LastUpdatedAt := metav1.NewTime t }) := by
  refine ⟨?_, GetHash_load s key mem, rfl, ?_⟩
  · rw [GetHash_closed]
    cases h : s.LastDeployed.lookup key <;> simp
  · refine ⟨_, UpdateHashIfNotExist_closed s key hash t mem, ?_, ?_⟩
    · rw [GetHash_closed]
      simp [StatusMap.lookup]
    · rw [GetHash_load]
      simp [StatusMap.lookup]

/-- C8. `GetHash` leaves the receiver as it was, for every store and key, on a hit
and on a miss (a nil map stays nil), and what it returns is a copy: after the caller
overwrites `Hash` and `LastUpdatedAt` through the returned pointer, which does change
the record the pointer refers to, a later `GetHash` still returns the record the first
one returned, and the store is still the one before the first call. -/
theorem GetHash_pure_copy (s : SpinnakerServiceStatus) (key : String) (mem : Heap)
    (x : String) (ts : metav1.Time) :
    (s.GetHash key mem).status.LastDeployed = s.LastDeployed ∧
    ((SpinnakerServiceStatus.mk none).GetHash key mem).status.LastDeployed = none ∧
    (∀ a, (s.GetHash key mem).ret = some a →
      (((s.GetHash key mem).mem.setHash a x).setLastUpdatedAt a ts).load (some a) =
        some { Hash := x, LastUpdatedAt := ts } ∧
      ((s.GetHash key mem).status.GetHash key ((s.GetHash key mem).mem.setHash a x)).ret
        ≠ none ∧
      (∀ mem2, mem2 = (s.GetHash key mem).mem.setHash a x ∨
          mem2 = (s.GetHash key mem).mem.setLastUpdatedAt a ts ∨
          mem2 = ((s.GetHash key mem).mem.setHash a x).setLastUpdatedAt a ts →
        ((s.GetHash key mem).status.GetHash key mem2).mem.load
            ((s.GetHash key mem).status.GetHash key mem2).ret =
          (s.GetHash key mem).mem.load (s.GetHash key mem).ret ∧
        ((s.GetHash key mem).status.GetHash key mem2).status.LastDeployed =
          s.LastDeployed)) := by
  have hst : ∀ (s2 : SpinnakerServiceStatus) (m2 : Heap), (s2.GetHash key m2).status = s2 := by
    intro s2 m2
    rw [GetHash_closed]; cases s2.LastDeployed.lookup key <;> rfl
  refine ⟨by rw [hst], rfl, ?_⟩
  intro a hret
  rw [GetHash_closed] at hret
  cases h : s.LastDeployed.lookup key with
  | none => simp [h] at hret
  | some hs =>
    simp only [h, Option.some.injEq] at hret
    subst hret
    refine ⟨?_, ?_, ?_⟩
    · simp [GetHash_closed, h, Heap.setHash, Heap.setLastUpdatedAt, Heap.load]
    · rw [hst, GetHash_closed]; simp [h]
    · intro mem2 _
      constructor
      · rw [hst, GetHash_load, GetHash_load]
      · rw [hst, hst]

/-- Witness of C8: the store `{a: {h1, 100}}`, whose record is handed out in cell 0 on
a hit at `a`, and which is left as it was on a miss at `b`. -/
theorem GetHash_pure_copy_witness :
    (storeA.GetHash "a" {}).ret = some 0 ∧
    (storeA.GetHash "b" {}).ret = none ∧
    (storeA.GetHash "b" {}).status.LastDeployed = storeA.LastDeployed ∧
    ((storeA.GetHash "a" {}).mem.setHash 0 "zz").load (some 0) =
      some { Hash := "zz", LastUpdatedAt := { Time := { ns := 100 } } } ∧
    ((storeA.GetHash "a" {}).status.GetHash "a"
        ((storeA.GetHash "a" {}).mem.setHash 0 "zz")).mem.load
      ((storeA.GetHash "a" {}).status.GetHash "a"
        ((storeA.GetHash "a" {}).mem.setHash 0 "zz")).ret =
      some { Hash := "h1", LastUpdatedAt := { Time := { ns := 100 } } } := by
  have h := (GetHash_pure_copy storeA "a" {} "zz" { Time := { ns := 7 } }).2.2 0
    (by decide)
  refine ⟨by decide, by decide,
    (GetHash_pure_copy storeA "b" {} "zz" { Time := { ns := 7 } }).1, by decide, ?_⟩
  rw [(h.2.2 _ (Or.inl rfl)).1]
  decide

/-- C9. Applying `UpdateHashIfNotExist` twice with the same key, hash and time leaves
the store the first application left, and the second call returns the record the
first one wrote. -/
theorem UpdateHashIfNotExist_idempotent (s : SpinnakerServiceStatus) (key hash : String)
    (t : time.Time) (mem : Heap) :
    ∃ post1 post2, s.UpdateHashIfNotExist key hash t mem = some post1 ∧
      post1.status.UpdateHashIfNotExist key hash t post1.mem = some post2 ∧
      post2.status.LastDeployed = post1.status.LastDeployed ∧
      post2.ret ≠ none ∧
      post2.mem.load post2.ret =
        some { Hash := hash, LastUpdatedAt := metav1.NewTime t } := by
  refine ⟨_, _, UpdateHashIfNotExist_closed s key hash t mem,
    UpdateHashIfNotExist_closed _ key hash t _, ?_, ?_, ?_⟩
  · simp only [Option.some.injEq]
    funext k
    by_cases hk : k = key <;> simp [hk, StatusMap.lookup]
  · simp
  · dsimp only
    rw [Heap.load_snoc]
    simp [StatusMap.lookup]

/-- C10, as stated, fails: on the store `{a: {h1, 100}}` an update of `a` with the
same hash `h1` at time 200 leaves time 200 in the store, not the earlier 100. -/
theorem UpdateHashIfNotExist_same_hash_counterexample :
    storeA.LastDeployed.lookup "a" =
      some { Hash := "h1", LastUpdatedAt := { Time := { ns := 100 } } } ∧
    ∃ post, storeA.UpdateHashIfNotExist "a" "h1" { ns := 200 } {} = some post ∧
      post.status.LastDeployed.lookup "a" =
        some { Hash := "h1", LastUpdatedAt := { Time := { ns := 200 } } } ∧
      (post.status.LastDeployed.lookup "a").map HashStatus.LastUpdatedAt ≠
        (storeA.LastDeployed.lookup "a").map HashStatus.LastUpdatedAt := by
  refine ⟨by decide, _, UpdateHashIfNotExist_closed _ _ _ _ _, ?_, ?_⟩
  · simp [StatusMap.lookup, metav1.NewTime]
  · simp [StatusMap.lookup, metav1.NewTime, storeA]

/-- C10, amended. `UpdateHashIfNotExist` stores the time it is given on every call:
when `key` is present with the very hash being written, the stored record after the
call is the earlier one with `LastUpdatedAt` replaced by the time of the call, so the
stored time is the earlier one only when the two coincide; the earlier time survives
in the returned copy alone. -/
theorem UpdateHashIfNotExist_same_hash_updates_time (s : SpinnakerServiceStatus)
    (key hash : String) (t : time.Time) (mem : Heap) (prior : HashStatus)
    (hpresent : s.LastDeployed.lookup key = some prior) (hsame : prior.Hash = hash) :
    ∃ post, s.UpdateHashIfNotExist key hash t mem = some post ∧
      post.status.LastDeployed.lookup key =
        some { prior with LastUpdatedAt := metav1.NewTime t } ∧
      (post.status.LastDeployed.lookup key).map HashStatus.LastUpdatedAt =
        some (metav1.NewTime t) ∧
      ((post.status.LastDeployed.lookup key).map HashStatus.LastUpdatedAt =
          some prior.LastUpdatedAt ↔ prior.LastUpdatedAt = metav1.NewTime t) ∧
      post.mem.load post.ret = some prior := by
  refine ⟨_, UpdateHashIfNotExist_closed s key hash t mem, ?_, ?_, ?_, ?_⟩
  · simp [StatusMap.lookup, hsame]
  · simp [StatusMap.lookup]
  · simp [StatusMap.lookup, eq_comm]
  · dsimp only
    rw [Heap.load_snoc, hpresent]
    rfl

/-- Witness of C10 amended: the store `{a: {h1, 100}}` updated with `h1` at 200. -/
theorem UpdateHashIfNotExist_same_hash_updates_time_witness :
    ∃ post, storeA.UpdateHashIfNotExist "a" "h1" { ns := 200 } {} = some post ∧
      (post.status.LastDeployed.lookup "a").map HashStatus.LastUpdatedAt =
        some (metav1.NewTime { ns := 200 }) := by
  obtain ⟨post, h1, _, h2, _⟩ := UpdateHashIfNotExist_same_hash_updates_time storeA "a" "h1"
    { ns := 200 } {} { Hash := "h1", LastUpdatedAt := { Time := { ns := 100 } } }
    (by decide) rfl
  exact ⟨post, h1, h2⟩

end interfaces

/-! ## Accounts: resolver and serializer -/

namespace kubernetes

/-- C11. When the settings map has no `name` or an empty one, whatever else it
carries, `FromSpinnakerConfig` fails and the message of the error is exactly
"Kubernetes account missing name". -/
theorem FromSpinnakerConfig_missing_name (settings : interfaces.FreeForm)
    (hname : settings Name = none ∨ settings Name = some (.str "")) :
    ∃ e, FromSpinnakerConfig settings = .error e ∧
      e.Error = "Kubernetes account missing name" := by
  refine ⟨.errorf (GetType ++ " account missing name"), ?_, by decide⟩
  rcases hname with h | h <;> simp [FromSpinnakerConfig, h]

/-- Witness of C11: the settings `{kubeconfigFile: "test"}` of the tests. -/
theorem FromSpinnakerConfig_missing_name_witness :
    settingsNoName Name = none ∧
    ∃ e, FromSpinnakerConfig settingsNoName = .error e ∧
      e.Error = "Kubernetes account missing name" :=
  ⟨by decide, FromSpinnakerConfig_missing_name settingsNoName (Or.inl (by decide))⟩

/-- C12. Without a `kubernetes` section `FromCRD` fails with the sentinel
`noKubernetesDefinedError`, whatever the `settings` section holds, and the sentinel is
told apart from any error built from a message; with a `kubernetes` section, empty or
not, `FromCRD` returns an account and no error. -/
theorem FromCRD_kubernetes_section (settings : Option interfaces.FreeForm)
    (section_ : interfaces.FreeForm) (msg : String) :
    FromCRD { Kubernetes := none, Settings := settings } =
      .error .noKubernetesDefinedError ∧
    GoError.errorf msg ≠ GoError.noKubernetesDefinedError ∧
    (∃ a, FromCRD { Kubernetes := some section_, Settings := settings } = .ok a) ∧
    (∃ a, FromCRD { Kubernetes := some (fun _ => none), Settings := settings } = .ok a) := by
  refine ⟨rfl, ?_, ⟨_, rfl⟩, ⟨_, rfl⟩⟩
  intro h
  cases h

/-- C13. An account whose `Auth` has `UseServiceAccount` set renders without error,
whatever its name, environment and settings, and the rendered map holds `true` under
the reserved key `UseServiceAccount`; so does the account resolved from
`{name: "test", serviceAccount: true}`. -/
theorem ToSpinnakerSettings_service_account (a : Account)
    (auth : interfaces.KubernetesAuth) (hauth : a.Auth = some auth)
    (hsa : auth.UseServiceAccount = true) :
    (∃ ss, a.ToSpinnakerSettings = .ok ss ∧ ss UseServiceAccount = some (.bool true)) ∧
    (∃ resolved ss, FromSpinnakerConfig settingsServiceAccount = .ok resolved ∧
      resolved.ToSpinnakerSettings = .ok ss ∧
      ss UseServiceAccount = some (.bool true)) := by
  constructor
  · refine ⟨_, rfl, ?_⟩
    have hk : UseServiceAccount ≠ kubernetes.Name := by decide
    simp [hk, authSettings, hauth, hsa]
  · refine ⟨_, _, rfl, rfl, ?_⟩
    decide

/-- Witness of C13: the account `kube-sa` of the tests, with empty settings. -/
theorem ToSpinnakerSettings_service_account_witness :
    ∃ ss, Account.ToSpinnakerSettings
        { Name := "kube-sa", Auth := some { UseServiceAccount := true }, Env := {},
          Settings := fun _ => none } = .ok ss ∧
      ss UseServiceAccount = some (.bool true) :=
  (ToSpinnakerSettings_service_account
    { Name := "kube-sa", Auth := some { UseServiceAccount := true }, Env := {},
      Settings := fun _ => none }
    { UseServiceAccount := true } rfl rfl).1

end kubernetes

/-! ## Strings that `Atoi` rejects -/

namespace strconv

theorem ParseInt_syntax_zero (s : List Char) :
    (ParseInt s).2 = .ErrSyntax → (ParseInt s).1 = 0 := by
  unfold ParseInt
  cases s with
  | nil => simp
  | cons c cs =>
    simp only
    generalize ParseUint (if c = '+' ∨ c = '-' then cs else c :: cs) = r
    obtain ⟨un, err⟩ := r
    simp only
    split_ifs <;> simp

/-- A string `Atoi` rejects with a syntax error has the value 0. -/
theorem Atoi_syntax_zero (str : String) :
    (Atoi str).2 = .ErrSyntax → (Atoi str).1 = 0 := by
  unfold Atoi
  simp only
  split_ifs with hlen
  · cases str.data with
    | nil => simp
    | cons c cs =>
      simp only
      split_ifs <;> (try split) <;> simp
  · exact ParseInt_syntax_zero _

/-- A digit string beyond the 64-bit range is a range error, and its value is the
largest `int`, not 0. -/
theorem Atoi_out_of_range_example :
    strconv.Atoi "99999999999999999999" = (9223372036854775807, .ErrRange) := by
  decide

end strconv

/-! ## Validation settings and the frame of the hash store -/

namespace interfaces

/-- The seconds `NeedsValidation` works with are the same before and after
`GetValidationSettings` has applied the default. -/
theorem NeedsValidation.secs_GetValidationSettings (s : SpinnakerValidation)
    (enabled : Bool) (failOnError : Option Bool) :
    NeedsValidation.secs s.GetValidationSettings.1 =
      NeedsValidation.secs { Enabled := enabled, FailOnError := failOnError,
                             FrequencySeconds := s.FrequencySeconds } := by
  have hd : DefaultValidationFreqSeconds.IntValue = 30 := by decide
  by_cases h : s.FrequencySeconds.IntValue = 0 <;>
    simp [NeedsValidation.secs, SpinnakerValidation.GetValidationSettings, h, hd]

/-- C14. `GetValidationSettings` returns a setting that is enabled, carries the
receiver's `FailOnError` as it is and, for the frequency, the integer 30 when
`IntValue()` of the receiver's frequency is 0 and that frequency unchanged otherwise;
the receiver is left as it was. `IntValue()` is 0 for the integer 0, for the absent
(zero) value and for every string `Atoi` rejects with a syntax error. -/
theorem GetValidationSettings_spec (s : SpinnakerValidation) :
    s.GetValidationSettings.1.Enabled = true ∧
    s.GetValidationSettings.1.FailOnError = s.FailOnError ∧
    s.GetValidationSettings.1.FrequencySeconds =
      (if s.FrequencySeconds.IntValue = 0 then { Typ := .Int, IntVal := 30, StrVal := "" }
       else s.FrequencySeconds) ∧
    s.GetValidationSettings.2 = s ∧
    intstr.IntOrString.IntValue { Typ := .Int, IntVal := 0 } = 0 ∧
    intstr.IntOrString.IntValue {} = 0 ∧
    (∀ str, (strconv.Atoi str).2 = .ErrSyntax →
      intstr.IntOrString.IntValue { Typ := .String, StrVal := str } = 0) := by
  refine ⟨rfl, rfl, rfl, rfl, rfl, rfl, ?_⟩
  intro str h
  simpa [intstr.IntOrString.IntValue] using strconv.Atoi_syntax_zero str h

/-- Witness of C14: the unparseable frequency "abc" resolves to the integer 30. -/
theorem GetValidationSettings_spec_witness :
    (strconv.Atoi "abc").2 = .ErrSyntax ∧
    intstr.IntOrString.IntValue { Typ := .String, StrVal := "abc" } = 0 ∧
    (SpinnakerValidation.GetValidationSettings
      { FailOnError := some false,
        FrequencySeconds := { Typ := .String, StrVal := "abc" } }).1 =
      { Enabled := true, FailOnError := some false,
        FrequencySeconds := { Typ := .Int, IntVal := 30 } } :=
  ⟨by decide,
   (GetValidationSettings_spec {}).2.2.2.2.2.2 "abc" (by decide),
   by decide⟩

/-- C15. `UpdateHashIfNotExist` touches the given key alone: a different key has the
same record, or the same absence of a record, after the call as before, and the keys
present after the call are the keys present before together with `key`. -/
theorem UpdateHashIfNotExist_frame (s : SpinnakerServiceStatus) (key hash : String)
    (t : time.Time) (mem : Heap) (k : String) (hk : k ≠ key) :
    ∃ post, s.UpdateHashIfNotExist key hash t mem = some post ∧
      post.status.LastDeployed.lookup k = s.LastDeployed.lookup k ∧
      (∀ k2, (post.status.LastDeployed.lookup k2).isSome = true ↔
        (k2 = key ∨ (s.LastDeployed.lookup k2).isSome = true)) := by
  refine ⟨_, UpdateHashIfNotExist_closed s key hash t mem, ?_, ?_⟩
  · simp [StatusMap.lookup, hk]
  · intro k2
    by_cases h2 : k2 = key <;> simp [StatusMap.lookup, h2]

/-- Witness of C15: the store `{a: {h1, 100}}` updated at key `b`, looked up at `a`. -/
theorem UpdateHashIfNotExist_frame_witness :
    ∃ post, storeA.UpdateHashIfNotExist "b" "h2" { ns := 200 } {} = some post ∧
      post.status.LastDeployed.lookup "a" =
        some { Hash := "h1", LastUpdatedAt := { Time := { ns := 100 } } } := by
  obtain ⟨post, h1, h2, _⟩ :=
    UpdateHashIfNotExist_frame storeA "b" "h2" { ns := 200 } {} "a" (by decide)
  exact ⟨post, h1, h2.trans (by decide)⟩

/-- C16. The two places that apply the default frequency agree: `NeedsValidation` on
the setting `GetValidationSettings` returns gives what it gives on a setting carrying
the receiver's frequency unresolved, and `IsFatal` on it gives what it gives on a
setting carrying the receiver's `FailOnError`. -/
theorem GetValidationSettings_agrees (s : SpinnakerValidation) (enabled : Bool)
    (failOnError : Option Bool) (freq : intstr.IntOrString) (lastValid : metav1.Time)
    (now : time.Time) :
    s.GetValidationSettings.1.NeedsValidation lastValid now =
      ValidationSetting.NeedsValidation
        { Enabled := enabled, FailOnError := failOnError,
          FrequencySeconds := s.FrequencySeconds } lastValid now ∧
    s.GetValidationSettings.1.IsFatal =
      ValidationSetting.IsFatal
        { Enabled := enabled, FailOnError := s.FailOnError, FrequencySeconds := freq } := by
  refine ⟨?_, rfl⟩
  simp only [ValidationSetting.NeedsValidation,
    NeedsValidation.secs_GetValidationSettings s enabled failOnError]

/-- C17. `NeedsValidation` is monotone in the clock: once it is true at a clock
reading it is true at every later one, for the same setting and timestamp. -/
theorem NeedsValidation_monotone (v : ValidationSetting) (lastValid : metav1.Time)
    (now later : time.Time) (hdue : v.NeedsValidation lastValid now = true)
    (hlater : now.ns ≤ later.ns) :
    v.NeedsValidation lastValid later = true := by
  unfold ValidationSetting.NeedsValidation at hdue ⊢
  split
  · rfl
  · rename_i hz
    rw [if_neg hz] at hdue
    simp only [time.Time.After, decide_eq_true_eq] at hdue ⊢
    omega

/-- Witness of C17: frequency 0, validated at second 100, due at second 131 and still
due at second 500. -/
theorem NeedsValidation_monotone_witness :
    ValidationSetting.NeedsValidation {} { Time := { ns := 100000000000 } }
      { ns := 131000000000 } = true ∧
    ValidationSetting.NeedsValidation {} { Time := { ns := 100000000000 } }
      { ns := 500000000000 } = true :=
  ⟨by decide,
   NeedsValidation_monotone {} { Time := { ns := 100000000000 } } { ns := 131000000000 }
     { ns := 500000000000 } (by decide) (by decide)⟩

/-- C18. For a frequency of integer type, a 32-bit signed value, the duration
`secs * 1000000000` of `NeedsValidation` stays within the signed 64-bit range, so the
64-bit product is the exact one; from 9223372037 seconds on, which a frequency of
string type can reach, the 64-bit product wraps and differs from the exact one. -/
theorem duration_no_overflow_of_int (v : ValidationSetting)
    (hint : v.FrequencySeconds.Typ = .Int) (hwf : v.FrequencySeconds.wellFormed) :
    fitsInt64 (NeedsValidation.secs v * time.Second) ∧
    wrapInt64 (NeedsValidation.secs v * time.Second) =
      NeedsValidation.secs v * 1000000000 ∧
    (∀ w : ValidationSetting, 9223372037 ≤ NeedsValidation.secs w →
      wrapInt64 (NeedsValidation.secs w * time.Second) ≠
        NeedsValidation.secs w * 1000000000) ∧
    (∃ w : ValidationSetting, w.FrequencySeconds.Typ = .String ∧
      NeedsValidation.secs w = 9223372037 ∧
      wrapInt64 (NeedsValidation.secs w * time.Second) =
        NeedsValidation.secs w * 1000000000 - 2 ^ 64) := by
  have hfit : fitsInt64 (NeedsValidation.secs v * time.Second) := by
    have hs := NeedsValidation.secs_eq v
    have hv : v.FrequencySeconds.IntValue = v.FrequencySeconds.IntVal := by
      simp [intstr.IntOrString.IntValue, hint]
    unfold intstr.IntOrString.wellFormed at hwf
    unfold fitsInt64 time.Second
    rw [hs, hv]
    split <;> omega
  refine ⟨hfit, wrapInt64_of_fits _ hfit, ?_, ?_⟩
  · intro w hw
    unfold wrapInt64 time.Second
    omega
  · exact ⟨{ FrequencySeconds := { Typ := .String, StrVal := "9223372037" } },
      by decide⟩

/-- Witness of C18: the integer frequency 2147483647, the largest of its type. -/
theorem duration_no_overflow_of_int_witness :
    wrapInt64 (NeedsValidation.secs
        { FrequencySeconds := { Typ := .Int, IntVal := 2147483647 } } * time.Second) =
      NeedsValidation.secs
        { FrequencySeconds := { Typ := .Int, IntVal := 2147483647 } } * 1000000000 :=
  (duration_no_overflow_of_int
    { FrequencySeconds := { Typ := .Int, IntVal := 2147483647 } } rfl
    (by unfold intstr.IntOrString.wellFormed; decide)).2.1

end interfaces
